import Mathlib

/-!
Verification development for the product-catalog service.

The definitions below are a shallow embedding of the repository's core:
`app/core/cache.py` (the `AsyncTTLCache` class and `make_key`),
`app/services/product_service.py`, `app/services/category_service.py`,
and the `create` route of `app/api/product_routes.py`.

Modelling conventions:
- Python `dict` state is an association list with unique keys (insertion
  order preserved; assignment to an existing key keeps its position).
- `time.time()` timestamps are integers passed explicitly (`now`).
- Python strings compare lexicographically by code point; this is
  `charListLe` on `String.data`.
- SQL `Numeric` prices are rationals; `Integer` columns are `Int`.
- The async SQLAlchemy session is replaced by explicit state passing; a
  call that commits returns the new store.  Primary-key uniqueness of
  `id` columns is a store invariant and appears as a hypothesis where a
  theorem needs it.
-/

namespace Catalog

/-- Lexicographic comparison of char lists by code point, the order used
by Python's `sorted` on strings and by SQL text ordering here. -/
def charListLe : List Char → List Char → Bool
  | [], _ => true
  | _ :: _, [] => false
  | a :: as, b :: bs =>
    if a < b then true
    else if b < a then false
    else charListLe as bs

/-- Python `s.startswith(p)`: `p` is a character-wise prefix of `s`. -/
def strStartsWith (s p : String) : Bool :=
  p.data.isPrefixOf s.data

/-- Character-list substring test: does `needle` occur contiguously in
`hay`?  Used to model SQL `LIKE '%needle%'`. -/
def containsSub : List Char → List Char → Bool
  | [], needle => needle.isEmpty
  | h :: t, needle => needle.isPrefixOf (h :: t) || containsSub t needle

/-- One step of SQL LIKE matching: the tails of `s` reachable after the
pattern consumes a prefix of `s`.  `%` matches any (possibly empty)
sequence, `_` matches exactly one character, and any other pattern
character matches one character case-insensitively (ILIKE).  The
source's `.ilike()` attaches no ESCAPE clause, and no escape character
is modelled. -/
def likeRem : List Char → List Char → List (List Char)
  | [], s => [s]
  | pc :: ps, s =>
    if pc = '%' then s.tails.flatMap (fun t => likeRem ps t)
    else
      match s with
      | [] => []
      | c :: t =>
        if pc = '_' then likeRem ps t
        else if pc.toLower = c.toLower then likeRem ps t else []

/-- SQL ILIKE: the pattern matches the whole string, i.e. some way of
consuming the pattern uses up `s` entirely. -/
def likeMatch (pat s : List Char) : Bool :=
  (likeRem pat s).any List.isEmpty

/-- `s ILIKE pat` on strings.  The caller interpolates the raw filter
into the pattern (`f"%{name}%"`), so `%` and `_` inside the filter stay
active as wildcards. -/
def sqlIlike (s pat : String) : Bool :=
  likeMatch pat.data s.data

/-- Python `str(x)` for an optional value (`str(None) = "None"`). -/
def pyStrOpt (f : α → String) : Option α → String
  | none => "None"
  | some v => f v

/-! ## app/core/cache.py -/

/-- `_Entry`: a cached value with its absolute expiry timestamp. -/
structure CacheEntry (α : Type) where
  value : α
  expires_at : Int
deriving DecidableEq

/-- The `AsyncTTLCache._store` dict: an insertion-ordered association
list with unique keys. -/
abbrev CacheState (α : Type) : Type := List (String × CacheEntry α)

namespace AsyncTTLCache

/-- `get(key)` at time `now`: absent if no entry; if the entry's expiry
is strictly before `now` it is removed lazily and absent is returned;
otherwise the value is returned.  Returns (result, new store). -/
def get (c : CacheState α) (key : String) (now : Int) : Option α × CacheState α :=
  match c.find? (fun kv => kv.1 == key) with
  | none => (none, c)
  | some kv =>
    if kv.2.expires_at < now then
      (none, c.eraseP (fun kv => kv.1 == key))
    else
      (some kv.2.value, c)

/-- Dict assignment `self._store[key] = entry`: replace in place if the
key exists, else append. -/
def insertEntry : CacheState α → String → CacheEntry α → CacheState α
  | [], key, e => [(key, e)]
  | kv :: t, key, e =>
    if kv.1 == key then (key, e) :: t else kv :: insertEntry t key e

/-- `set(key, value, ttl_seconds)` at time `now`: stores the value with
expiry `now + ttl_seconds`, overwriting any existing entry. -/
def set (c : CacheState α) (key : String) (value : α) (ttl_seconds : Int)
    (now : Int) : CacheState α :=
  insertEntry c key ⟨value, now + ttl_seconds⟩

/-- `invalidate(key)`: remove the entry if present. -/
def invalidate (c : CacheState α) (key : String) : CacheState α :=
  c.eraseP (fun kv => kv.1 == key)

/-- `invalidate_prefix(prefix)`: remove every entry whose key starts
with the prefix; return (number removed, new store). -/
def invalidate_prefix (c : CacheState α) (pre : String) : Nat × CacheState α :=
  ((c.filter (fun kv => strStartsWith kv.1 pre)).length,
   c.filter (fun kv => !strStartsWith kv.1 pre))

end AsyncTTLCache

/-- Comparator on `(name, value)` parameter pairs: ascending name. -/
def paramLe (a b : String × String) : Bool :=
  charListLe a.1.data b.1.data

/-- `sorted(params.keys())` lifted to the pair list: stable sort of the
parameters by ascending name. -/
def sortParams (params : List (String × String)) : List (String × String) :=
  List.insertionSort (fun a b => paramLe a b = true) params

/-- `make_key(namespace, **params)`: `<namespace>|k1=v1|k2=v2...` with
segments ordered by ascending parameter name.  Parameter values are
already rendered to text (Python `f"{k}={v}"`). -/
def make_key (ns : String) (params : List (String × String)) : String :=
  String.intercalate "|"
    (ns :: (sortParams params).map (fun kv => kv.1 ++ "=" ++ kv.2))

/-! ## Data model (app/models) -/

/-- `departments` row. -/
structure Department where
  id : Int
  name : String
deriving DecidableEq

/-- `categories` row. -/
structure Category where
  id : Int
  name : String
  department_id : Int
deriving DecidableEq

/-- `products` row. -/
structure Product where
  id : Int
  name : String
  description : Option String
  price : ℚ
  stock : Int
  category_id : Int
deriving DecidableEq

/-- The relational store: the three tables. -/
structure DB where
  departments : List Department
  categories : List Category
  products : List Product
deriving DecidableEq

/-! ## Schemas (app/schemas/product.py) -/

/-- `ProductCreate` request body. -/
structure ProductCreate where
  name : String
  description : Option String
  price : ℚ
  stock : Int
  category_id : Int
deriving DecidableEq

/-- `ProductUpdate` request body; `none` means the field was absent from
the request (`model_dump(exclude_unset=True)` omits it).  For
`description` the inner option is the nullable column value. -/
structure ProductUpdate where
  name : Option String := none
  description : Option (Option String) := none
  price : Option ℚ := none
  stock : Option Int := none
  category_id : Option Int := none
deriving DecidableEq

/-! ## app/services/category_service.py -/

/-- `get_category_by_id`: single-row lookup by primary key. -/
def get_category_by_id (db : DB) (category_id : Int) : Option Category :=
  db.categories.find? (fun c => c.id == category_id)

/-! ## app/services/product_service.py -/

def NS_PRODUCTS_LIST : String := "products:list"

def NS_PRODUCTS_SUMMARY : String := "products:summary"

def TTL_LIST : Int := 60

def TTL_SUMMARY : Int := 120

/-- The pair of `invalidate_prefix` calls every product write performs
after its commit. -/
def invalidateAfterWrite (c : CacheState α) : CacheState α :=
  ( AsyncTTLCache.invalidate_prefix
    (( AsyncTTLCache.invalidate_prefix c NS_PRODUCTS_LIST).2)
    NS_PRODUCTS_SUMMARY).2

/-- `Product(**product_in.model_dump())` with the id the store assigns
at commit time. -/
def mkProduct (newId : Int) (pin : ProductCreate) : Product :=
  ⟨newId, pin.name, pin.description, pin.price, pin.stock, pin.category_id⟩

/-- `create_product`: persist the new row, then invalidate the list and
summary namespaces.  Returns (new store, new cache, created product). -/
def create_product (db : DB) (c : CacheState α) (pin : ProductCreate)
    (newId : Int) : DB × CacheState α × Product :=
  let p := mkProduct newId pin
  ({ db with products := db.products ++ [p] }, invalidateAfterWrite c, p)

/-- Parameters of `list_products` (the route supplies the defaults). -/
structure ListParams where
  skip : Nat := 0
  limit : Nat := 10
  name : Option String := none
  min_price : Option ℚ := none
  max_price : Option ℚ := none
  sort_by : String := "id"
  sort_order : String := "asc"
  category_id : Option Int := none
  department_id : Option Int := none
deriving DecidableEq

/-- The cache key `list_products` builds over all of its parameters. -/
def listKey (q : ListParams) : String :=
  make_key NS_PRODUCTS_LIST
    [("skip", toString q.skip), ("limit", toString q.limit),
     ("name", pyStrOpt id q.name),
     ("min_price", pyStrOpt toString q.min_price),
     ("max_price", pyStrOpt toString q.max_price),
     ("sort_by", q.sort_by), ("sort_order", q.sort_order),
     ("category_id", pyStrOpt toString q.category_id),
     ("department_id", pyStrOpt toString q.department_id)]

/-- The `WHERE` clauses of `list_products`, conjoined.  `if name:` is
Python truthiness, so an empty name string applies no filter; the name
filter is `Product.name.ilike(f"%{name}%")` with the raw filter
interpolated, so LIKE wildcards inside it stay active; the price and id
filters fire on `is not None`; the department filter is the inner join
on `Category` plus `Category.department_id == d`. -/
def passesFilters (db : DB) (q : ListParams) (p : Product) : Bool :=
  (match q.name with
   | none => true
   | some n => if n == "" then true else sqlIlike p.name ("%" ++ n ++ "%")) &&
  (match q.min_price with
   | none => true
   | some m => decide (m ≤ p.price)) &&
  (match q.max_price with
   | none => true
   | some m => decide (p.price ≤ m)) &&
  (match q.category_id with
   | none => true
   | some cid => p.category_id == cid) &&
  (match q.department_id with
   | none => true
   | some did =>
     db.categories.any (fun c => c.id == p.category_id && c.department_id == did))

/-- Comparison on the optional `description` column (SQL text order,
nulls last). -/
def descriptionLe : Option String → Option String → Bool
  | none, none => true
  | none, some _ => false
  | some _, none => true
  | some a, some b => charListLe a.data b.data

/-- The ORDER BY comparator of the resolved sort column, for the
executions that reach the ORDER BY: `field` one of the six mapped
column names, or any string on which `getattr(Product, field,
Product.id)` misses and falls back to the `id` column (see
`recognizedProductAttr` for the raising region, which no theorem
touches). -/
def fieldLe (field : String) (a b : Product) : Bool :=
  if field = "name" then charListLe a.name.data b.name.data
  else if field = "description" then descriptionLe a.description b.description
  else if field = "price" then decide (a.price ≤ b.price)
  else if field = "stock" then decide (a.stock ≤ b.stock)
  else if field = "category_id" then decide (a.category_id ≤ b.category_id)
  else decide (a.id ≤ b.id)

/-- `ORDER BY`: the chosen column, descending exactly when `sort_order`
is the string `"desc"`. -/
def sortProducts (q : ListParams) (ps : List Product) : List Product :=
  if q.sort_order == "desc" then
    List.insertionSort (fun a b => fieldLe q.sort_by b a = true) ps
  else
    List.insertionSort (fun a b => fieldLe q.sort_by a b = true) ps

/-- The store query `list_products` executes on a cache miss: filter,
sort, then paginate with `OFFSET skip LIMIT limit`. -/
def listProductsQuery (db : DB) (q : ListParams) : List Product :=
  ((sortProducts q (db.products.filter (passesFilters db q))).drop q.skip).take q.limit

/-- `list_products`: try the cache under `listKey`; on a hit return the
cached page verbatim; on a miss run the query, cache the page with
`TTL_LIST`, and return it. -/
def list_products (db : DB) (c : CacheState (List Product)) (q : ListParams)
    (now : Int) : List Product × CacheState (List Product) :=
  match AsyncTTLCache.get c (listKey q) now with
  | (some v, c₁) => (v, c₁)
  | (none, c₁) =>
    let items := listProductsQuery db q
    (items, AsyncTTLCache.set c₁ (listKey q) items TTL_LIST now)

/-- `get_product_by_id`: single-row lookup by primary key. -/
def get_product_by_id (db : DB) (product_id : Int) : Option Product :=
  db.products.find? (fun p => p.id == product_id)

/-- `setattr` loop over `model_dump(exclude_unset=True)`: fields present
in the request overwrite, absent fields are untouched. -/
def applyUpdate (p : Product) (u : ProductUpdate) : Product :=
  { p with
    name := match u.name with | none => p.name | some v => v
    description := match u.description with | none => p.description | some v => v
    price := match u.price with | none => p.price | some v => v
    stock := match u.stock with | none => p.stock | some v => v
    category_id := match u.category_id with | none => p.category_id | some v => v }

/-- `update_product`: look the row up; if absent return `none` with
nothing changed; otherwise apply the partial update, commit, and
invalidate the two namespaces.  Returns (result, new store, new cache). -/
def update_product (db : DB) (c : CacheState α) (product_id : Int)
    (u : ProductUpdate) : Option Product × DB × CacheState α :=
  match get_product_by_id db product_id with
  | none => (none, db, c)
  | some p =>
    let p' := applyUpdate p u
    (some p',
     { db with products := db.products.map (fun r => if r.id == product_id then p' else r) },
     invalidateAfterWrite c)

/-- `delete_product`: look the row up; if absent return `false` with
nothing changed; otherwise delete it, commit, and invalidate the two
namespaces.  Returns (deleted?, new store, new cache). -/
def delete_product (db : DB) (c : CacheState α) (product_id : Int) :
    Bool × DB × CacheState α :=
  match get_product_by_id db product_id with
  | none => (false, db, c)
  | some _ =>
    (true,
     { db with products := db.products.eraseP (fun p => p.id == product_id) },
     invalidateAfterWrite c)

/-! ## Aggregation reports -/

/-- Row of `avg_price_by_department`. -/
structure AvgPriceRow where
  department_id : Int
  department_name : String
  avg_price : ℚ
deriving DecidableEq

/-- Row of `total_stock_by_category`. -/
structure TotalStockRow where
  category_id : Int
  category_name : String
  department_id : Int
  department_name : String
  total_stock : Int
deriving DecidableEq

/-- Row of `count_products_by_department`. -/
structure CountRow where
  department_id : Int
  department_name : String
  product_count : Nat
deriving DecidableEq

/-- Row of `total_value_by_department`. -/
structure ValueRow where
  department_id : Int
  department_name : String
  total_value : ℚ
deriving DecidableEq

/-- The products a department reaches through the inner joins
`Category.department_id == Department.id` and
`Product.category_id == Category.id`. -/
def deptJoinedProducts (db : DB) (did : Int) : List Product :=
  (db.categories.filter (fun c => c.department_id == did)).flatMap
    (fun c => db.products.filter (fun p => p.category_id == c.id))

/-- The products of one category (`Product.category_id == Category.id`). -/
def catProducts (db : DB) (cid : Int) : List Product :=
  db.products.filter (fun p => p.category_id == cid)

/-- `ORDER BY Department.id` on the department table. -/
def sortedDepartments (db : DB) : List Department :=
  List.insertionSort (fun a b => decide (a.id ≤ b.id) = true) db.departments

/-- `ORDER BY Department.id, Category.id` on the joined categories
(each category's `department_id` equals its joined department's id). -/
def catLe (a b : Category) : Bool :=
  if a.department_id < b.department_id then true
  else if b.department_id < a.department_id then false
  else decide (a.id ≤ b.id)

/-- `ORDER BY Department.id, Category.id` applied to the category table. -/
def sortedCategories (db : DB) : List Category :=
  List.insertionSort (fun a b => catLe a b = true) db.categories

/-- The grouped query of `avg_price_by_department`: one row per
department that the inner join reaches, with the arithmetic mean of the
joined product prices, ordered by department id. -/
def avg_price_by_department_query (db : DB) : List AvgPriceRow :=
  (sortedDepartments db).filterMap (fun d =>
    if (deptJoinedProducts db d.id).isEmpty then none
    else some ⟨d.id, d.name,
      ((deptJoinedProducts db d.id).map Product.price).sum
        / ((deptJoinedProducts db d.id).length : ℚ)⟩)

/-- The grouped query of `count_products_by_department`. -/
def count_products_by_department_query (db : DB) : List CountRow :=
  (sortedDepartments db).filterMap (fun d =>
    if (deptJoinedProducts db d.id).isEmpty then none
    else some ⟨d.id, d.name, (deptJoinedProducts db d.id).length⟩)

/-- The grouped query of `total_value_by_department`: sum of
`price * stock` per department. -/
def total_value_by_department_query (db : DB) : List ValueRow :=
  (sortedDepartments db).filterMap (fun d =>
    if (deptJoinedProducts db d.id).isEmpty then none
    else some ⟨d.id, d.name,
      ((deptJoinedProducts db d.id).map (fun p => p.price * (p.stock : ℚ))).sum⟩)

/-- The grouped query of `total_stock_by_category`: one row per category
that the inner joins reach (its department must exist and it must have
at least one product), with the sum of stock, ordered by department id
then category id. -/
def total_stock_by_category_query (db : DB) : List TotalStockRow :=
  (sortedCategories db).filterMap (fun cg =>
    match db.departments.find? (fun d => d.id == cg.department_id) with
    | none => none
    | some d =>
      if (catProducts db cg.id).isEmpty then none
      else some ⟨cg.id, cg.name, d.id, d.name,
        ((catProducts db cg.id).map Product.stock).sum⟩)

/-- Cache key of `avg_price_by_department`. -/
def avgPriceKey : String :=
  make_key NS_PRODUCTS_SUMMARY [("name", "avg_price_by_department")]

/-- Cache key of `total_stock_by_category`. -/
def totalStockKey : String :=
  make_key NS_PRODUCTS_SUMMARY [("name", "total_stock_by_category")]

/-- Cache key of `count_products_by_department`. -/
def countKey : String :=
  make_key NS_PRODUCTS_SUMMARY [("name", "count_products_by_department")]

/-- Cache key of `total_value_by_department`. -/
def totalValueKey : String :=
  make_key NS_PRODUCTS_SUMMARY [("name", "total_value_by_department")]

/-- `avg_price_by_department`: cache wrapper around its query, with
`TTL_SUMMARY`. -/
def avg_price_by_department (db : DB) (c : CacheState (List AvgPriceRow))
    (now : Int) : List AvgPriceRow × CacheState (List AvgPriceRow) :=
  match AsyncTTLCache.get c avgPriceKey now with
  | (some v, c₁) => (v, c₁)
  | (none, c₁) =>
    let data := avg_price_by_department_query db
    (data, AsyncTTLCache.set c₁ avgPriceKey data TTL_SUMMARY now)

/-- `total_stock_by_category`: cache wrapper around its query. -/
def total_stock_by_category (db : DB) (c : CacheState (List TotalStockRow))
    (now : Int) : List TotalStockRow × CacheState (List TotalStockRow) :=
  match AsyncTTLCache.get c totalStockKey now with
  | (some v, c₁) => (v, c₁)
  | (none, c₁) =>
    let data := total_stock_by_category_query db
    (data, AsyncTTLCache.set c₁ totalStockKey data TTL_SUMMARY now)

/-- `count_products_by_department`: cache wrapper around its query. -/
def count_products_by_department (db : DB) (c : CacheState (List CountRow))
    (now : Int) : List CountRow × CacheState (List CountRow) :=
  match AsyncTTLCache.get c countKey now with
  | (some v, c₁) => (v, c₁)
  | (none, c₁) =>
    let data := count_products_by_department_query db
    (data, AsyncTTLCache.set c₁ countKey data TTL_SUMMARY now)

/-- `total_value_by_department`: cache wrapper around its query. -/
def total_value_by_department (db : DB) (c : CacheState (List ValueRow))
    (now : Int) : List ValueRow × CacheState (List ValueRow) :=
  match AsyncTTLCache.get c totalValueKey now with
  | (some v, c₁) => (v, c₁)
  | (none, c₁) =>
    let data := total_value_by_department_query db
    (data, AsyncTTLCache.set c₁ totalValueKey data TTL_SUMMARY now)

/-! ## app/api/product_routes.py: the create endpoint -/

/-- The `create` route: validate that `category_id` resolves to an
existing category before persisting; on failure raise 400 with nothing
written; on success delegate to `create_product`. -/
def create (db : DB) (c : CacheState α) (req : ProductCreate) (newId : Int) :
    Except String Product × DB × CacheState α :=
  match get_category_by_id db req.category_id with
  | none => (.error "Invalid category_id: category not found", db, c)
  | some _ =>
    let r := create_product db c req newId
    (.ok r.2.2, r.1, r.2.1)

end Catalog

namespace Catalog

/-! ## Order-theoretic facts about `charListLe` -/

theorem charListLe_total : ∀ (xs ys : List Char),
    charListLe xs ys = true ∨ charListLe ys xs = true := by
  intro xs
  induction xs with
  | nil => intro ys; left; rfl
  | cons a as ih =>
    intro ys
    cases ys with
    | nil => right; rfl
    | cons b bs =>
      rcases lt_trichotomy a b with h | h | h
      · left; simp [charListLe, h]
      · subst h
        rcases ih bs with h' | h'
        · left; simpa [charListLe, lt_irrefl] using h'
        · right; simpa [charListLe, lt_irrefl] using h'
      · right; simp [charListLe, h]

theorem charListLe_trans : ∀ (xs ys zs : List Char),
    charListLe xs ys = true → charListLe ys zs = true → charListLe xs zs = true := by
  intro xs
  induction xs with
  | nil => intro ys zs _ _; rfl
  | cons a as ih =>
    intro ys zs h1 h2
    cases ys with
    | nil => simp [charListLe] at h1
    | cons b bs =>
      cases zs with
      | nil => simp [charListLe] at h2
      | cons c cs =>
        rcases lt_trichotomy a b with hab | hab | hab
        · rcases lt_trichotomy b c with hbc | hbc | hbc
          · have hac : a < c := lt_trans hab hbc
            simp [charListLe, hac]
          · subst hbc; simp [charListLe, hab]
          · simp [charListLe, asymm hbc, hbc] at h2
        · subst hab
          rcases lt_trichotomy a c with hac | hac | hac
          · simp [charListLe, hac]
          · subst hac
            simp [charListLe, lt_irrefl] at h1 h2 ⊢
            exact ih bs cs h1 h2
          · simp [charListLe, asymm hac, hac] at h2
        · simp [charListLe, asymm hab, hab] at h1

theorem charListLe_antisymm : ∀ (xs ys : List Char),
    charListLe xs ys = true → charListLe ys xs = true → xs = ys := by
  intro xs
  induction xs with
  | nil =>
    intro ys h1 h2
    cases ys with
    | nil => rfl
    | cons b bs => simp [charListLe] at h2
  | cons a as ih =>
    intro ys h1 h2
    cases ys with
    | nil => simp [charListLe] at h1
    | cons b bs =>
      rcases lt_trichotomy a b with hab | hab | hab
      · simp [charListLe, asymm hab, hab] at h2
      · subst hab
        simp [charListLe, lt_irrefl] at h1 h2
        rw [ih bs h1 h2]
      · simp [charListLe, asymm hab, hab] at h1

/-! ## Association-list facts used by the cache theorems -/

theorem find?_filter_of_imp (p q : α → Bool) (l : List α)
    (h : ∀ x, p x = true → q x = true) :
    (l.filter q).find? p = l.find? p := by
  induction l with
  | nil => rfl
  | cons a t ih =>
    by_cases hq : q a = true
    · rw [List.filter_cons_of_pos hq]
      by_cases hp : p a = true
      · rw [List.find?_cons_of_pos _ hp, List.find?_cons_of_pos _ hp]
      · rw [List.find?_cons_of_neg _ hp, List.find?_cons_of_neg _ hp, ih]
    · rw [List.filter_cons_of_neg hq]
      have hp : ¬ (p a = true) := fun hpa => hq (h a hpa)
      rw [List.find?_cons_of_neg _ hp, ih]

theorem find?_insertEntry_self (c : CacheState α) (k : String) (e : CacheEntry α) :
    (AsyncTTLCache.insertEntry c k e).find? (fun kv => kv.1 == k) = some (k, e) := by
  induction c with
  | nil => simp [AsyncTTLCache.insertEntry]
  | cons kv t ih =>
    by_cases h : kv.1 == k
    · simp [AsyncTTLCache.insertEntry, h]
    · simp only [AsyncTTLCache.insertEntry, h, if_false, Bool.false_eq_true]
      rw [List.find?_cons_of_neg _ (by simpa using h)]
      exact ih

theorem strStartsWith_empty (k : String) : strStartsWith k "" = true := by
  simp [strStartsWith, List.isPrefixOf]

/-- After filtering out every entry whose key starts with `pre`, a `get`
on any key that does start with `pre` misses. -/
theorem get_filtered_out_none (c : CacheState α) (pre k : String) (now : Int)
    (hk : strStartsWith k pre = true) :
    (AsyncTTLCache.get (c.filter (fun kv => !strStartsWith kv.1 pre)) k now).1 = none := by
  have hfind : (c.filter (fun kv => !strStartsWith kv.1 pre)).find?
      (fun kv => kv.1 == k) = none := by
    rw [List.find?_eq_none]
    intro kv hmem hbeq
    rcases List.mem_filter.mp hmem with ⟨_, hkeep⟩
    have hkeq : kv.1 = k := by simpa using hbeq
    rw [hkeq, hk] at hkeep
    simp at hkeep
  simp [AsyncTTLCache.get, hfind]

/-! ## C2, C3, C4 -/

/-- C2: `make_key` is permutation-invariant on parameter mappings — for
any two parameter lists with the same name→value pairs (names distinct,
any order) the produced keys are byte-identical — and the segments of
the key are ordered by ascending parameter name. -/
theorem C2_make_key_deterministic (N : String) (P1 P2 : List (String × String))
    (hperm : P1.Perm P2) (hnd : (P1.map Prod.fst).Nodup) :
    make_key N P1 = make_key N P2 ∧
    List.Pairwise (fun a b : String => charListLe a.data b.data = true)
      ((sortParams P1).map Prod.fst) := by
  haveI : IsTotal (String × String) (fun a b => paramLe a b = true) :=
    ⟨fun a b => charListLe_total _ _⟩
  haveI : IsTrans (String × String) (fun a b => paramLe a b = true) :=
    ⟨fun _ _ _ h1 h2 => charListLe_trans _ _ _ h1 h2⟩
  have hperm1 : List.Perm (sortParams P1) P1 := List.perm_insertionSort _ _
  have hperm2 : List.Perm (sortParams P2) P2 := List.perm_insertionSort _ _
  have hsorted1 : List.Sorted (fun a b => paramLe a b = true) (sortParams P1) :=
    List.sorted_insertionSort _ P1
  have hsorted2 : List.Sorted (fun a b => paramLe a b = true) (sortParams P2) :=
    List.sorted_insertionSort _ P2
  have hnd2 : (P2.map Prod.fst).Nodup := ((hperm.map Prod.fst).nodup_iff).mp hnd
  have hndS1 : ((sortParams P1).map Prod.fst).Nodup :=
    ((hperm1.map Prod.fst).nodup_iff).mpr hnd
  have hndS2 : ((sortParams P2).map Prod.fst).Nodup :=
    ((hperm2.map Prod.fst).nodup_iff).mpr hnd2
  have hstrict : ∀ (l : List (String × String)),
      List.Sorted (fun a b => paramLe a b = true) l → (l.map Prod.fst).Nodup →
      List.Sorted (fun a b : String × String => paramLe a b = true ∧ a.1 ≠ b.1) l := by
    intro l hs hn
    have hne : List.Pairwise (fun a b : String × String => a.1 ≠ b.1) l :=
      List.pairwise_map.mp hn
    exact hs.and hne
  haveI : IsAntisymm (String × String)
      (fun a b : String × String => paramLe a b = true ∧ a.1 ≠ b.1) := ⟨by
    rintro a b ⟨h1, hne⟩ ⟨h2, _⟩
    exact absurd (String.ext (charListLe_antisymm _ _ h1 h2)) hne⟩
  have heq : sortParams P1 = sortParams P2 :=
    List.eq_of_perm_of_sorted (hperm1.trans (hperm.trans hperm2.symm))
      (hstrict _ hsorted1 hndS1) (hstrict _ hsorted2 hndS2)
  constructor
  · unfold make_key
    rw [heq]
  · exact List.pairwise_map.mpr (hsorted1.imp (fun h => h))

theorem C2_make_key_deterministic_witness :
    ([("b", "1"), ("a", "2")] : List (String × String)).Perm [("a", "2"), ("b", "1")] ∧
    (([("b", "1"), ("a", "2")] : List (String × String)).map Prod.fst).Nodup ∧
    make_key "products:list" [("b", "1"), ("a", "2")]
      = make_key "products:list" [("a", "2"), ("b", "1")] ∧
    make_key "products:list" [("b", "1"), ("a", "2")] = "products:list|a=2|b=1" :=
  ⟨List.Perm.swap _ _ _, by decide,
   (C2_make_key_deterministic "products:list" _ _ (List.Perm.swap _ _ _) (by decide)).1,
   rfl⟩

/-- C3 counterexample: an entry set with `ttl_seconds = 5` at time 0 is
still returned by `get` at time exactly 5, i.e. exactly T seconds after
the set — the claim predicts absent at time ≥ T. -/
theorem C3_ttl_boundary_counterexample :
    (AsyncTTLCache.get (AsyncTTLCache.set ([] : CacheState Nat) "k" 7 5 0) "k" 5).1
      = some 7 := by decide

/-- C3 amended: after `set(key, value, T)` at time `t₀`, a `get(key)` at
time `t ≤ t₀ + T` (strictly less than T after, and also exactly T after)
returns the stored value, and a `get(key)` strictly more than T seconds
after the set returns absent; in particular for T < 0 the very next get
returns absent, and for T = 0 it returns absent once the clock has
advanced past `t₀`. -/
theorem C3_ttl_amended (c : CacheState α) (k : String) (v : α) (T t₀ t : Int) :
    (t ≤ t₀ + T →
      (AsyncTTLCache.get (AsyncTTLCache.set c k v T t₀) k t).1 = some v) ∧
    (t₀ + T < t →
      (AsyncTTLCache.get (AsyncTTLCache.set c k v T t₀) k t).1 = none) := by
  have hf := find?_insertEntry_self c k (⟨v, t₀ + T⟩ : CacheEntry α)
  constructor
  · intro h
    simp [AsyncTTLCache.get, AsyncTTLCache.set, hf, not_lt.mpr h]
  · intro h
    simp [AsyncTTLCache.get, AsyncTTLCache.set, hf, h]

theorem C3_ttl_amended_witness :
    ((3 : Int) ≤ 0 + 5 ∧
      (AsyncTTLCache.get (AsyncTTLCache.set ([] : CacheState Nat) "k" 7 5 0) "k" 3).1
        = some 7) ∧
    ((0 : Int) + 5 < 6 ∧
      (AsyncTTLCache.get (AsyncTTLCache.set ([] : CacheState Nat) "k" 7 5 0) "k" 6).1
        = none) :=
  ⟨⟨by decide, (C3_ttl_amended [] "k" 7 5 0 3).1 (by decide)⟩,
   ⟨by decide, (C3_ttl_amended [] "k" 7 5 0 6).2 (by decide)⟩⟩

/-- C4: `invalidate_prefix` removes exactly the entries whose keys start
with the prefix and returns their count; afterwards no key starting with
the prefix is retrievable, `get` on any key not starting with the prefix
returns exactly what it returned before, and the empty prefix removes
every entry. -/
theorem C4_invalidate_prefix_correct (c : CacheState α) (pre : String) :
    ( AsyncTTLCache.invalidate_prefix c pre).1
        = (c.filter (fun kv => strStartsWith kv.1 pre)).length ∧
    (∀ kv : String × CacheEntry α,
      kv ∈ ( AsyncTTLCache.invalidate_prefix c pre).2 ↔
        kv ∈ c ∧ strStartsWith kv.1 pre = false) ∧
    (∀ (k : String) (now : Int), strStartsWith k pre = true →
      (AsyncTTLCache.get ( AsyncTTLCache.invalidate_prefix c pre).2 k now).1 = none) ∧
    (∀ (k : String) (now : Int), strStartsWith k pre = false →
      (AsyncTTLCache.get ( AsyncTTLCache.invalidate_prefix c pre).2 k now).1
        = (AsyncTTLCache.get c k now).1) ∧
    ( AsyncTTLCache.invalidate_prefix c "").2 = [] := by
  refine ⟨rfl, ?_, ?_, ?_, ?_⟩
  · intro kv
    simp only [ AsyncTTLCache.invalidate_prefix, List.mem_filter, Bool.not_eq_true']
  · intro k now hk
    simpa only [ AsyncTTLCache.invalidate_prefix] using
      get_filtered_out_none c pre k now hk
  · intro k now hk
    have himp : ∀ kv : String × CacheEntry α,
        (kv.1 == k) = true → (!strStartsWith kv.1 pre) = true := by
      intro kv hbeq
      have hkeq : kv.1 = k := by simpa using hbeq
      rw [hkeq, hk]
      rfl
    have hfind := find?_filter_of_imp (fun kv => kv.1 == k)
      (fun kv => !strStartsWith kv.1 pre) c himp
    simp only [ AsyncTTLCache.invalidate_prefix]
    cases hf : c.find? (fun kv => kv.1 == k) with
    | none => simp [AsyncTTLCache.get, hfind, hf]
    | some kv =>
      by_cases hexp : kv.2.expires_at < now
      · simp [AsyncTTLCache.get, hfind, hf, hexp]
      · simp [AsyncTTLCache.get, hfind, hf, hexp]
  · simp only [ AsyncTTLCache.invalidate_prefix]
    rw [List.filter_eq_nil_iff]
    intro kv _
    simp [strStartsWith_empty]

theorem C4_invalidate_prefix_correct_witness :
    strStartsWith "products:list|x" "products:list" = true ∧
    (AsyncTTLCache.get
      ( AsyncTTLCache.invalidate_prefix
        ([("products:list|x", (⟨0, 10⟩ : CacheEntry Nat)), ("other", ⟨1, 10⟩)])
        "products:list").2 "products:list|x" 3).1 = none ∧
    strStartsWith "other" "products:list" = false ∧
    (AsyncTTLCache.get
      ( AsyncTTLCache.invalidate_prefix
        ([("products:list|x", (⟨0, 10⟩ : CacheEntry Nat)), ("other", ⟨1, 10⟩)])
        "products:list").2 "other" 3).1
      = (AsyncTTLCache.get
          ([("products:list|x", (⟨0, 10⟩ : CacheEntry Nat)), ("other", ⟨1, 10⟩)])
          "other" 3).1 :=
  ⟨by decide,
   (C4_invalidate_prefix_correct _ _).2.2.1 "products:list|x" 3 (by decide),
   by decide,
   (C4_invalidate_prefix_correct _ _).2.2.2.1 "other" 3 (by decide)⟩

end Catalog

namespace Catalog

/-- After the write-path double invalidation, a `get` on any key in the
list or summary namespace misses. -/
theorem get_invalidateAfterWrite_none (c : CacheState α) (k : String) (now : Int)
    (hk : strStartsWith k NS_PRODUCTS_LIST = true ∨
          strStartsWith k NS_PRODUCTS_SUMMARY = true) :
    (AsyncTTLCache.get (invalidateAfterWrite c) k now).1 = none := by
  have hd : invalidateAfterWrite c
      = (c.filter (fun kv => !strStartsWith kv.1 NS_PRODUCTS_LIST)).filter
          (fun kv => !strStartsWith kv.1 NS_PRODUCTS_SUMMARY) := rfl
  rcases hk with hk | hk
  · rw [hd]
    have hfind : ((c.filter (fun kv => !strStartsWith kv.1 NS_PRODUCTS_LIST)).filter
        (fun kv => !strStartsWith kv.1 NS_PRODUCTS_SUMMARY)).find?
          (fun kv => kv.1 == k) = none := by
      rw [List.find?_eq_none]
      intro kv hmem hbeq
      have hmem1 := (List.mem_filter.mp hmem).1
      have hkeep := (List.mem_filter.mp hmem1).2
      have hkeq : kv.1 = k := by simpa using hbeq
      rw [hkeq, hk] at hkeep
      simp at hkeep
    simp only [AsyncTTLCache.get, hfind]
  · rw [hd]
    exact get_filtered_out_none _ NS_PRODUCTS_SUMMARY k now hk

/-- C1: after a successful `create_product`, `update_product` or
`delete_product` returns, no cache entry under the `products:list` or
`products:summary` namespace prefix is retrievable, so an immediately
following list or summary request cannot be served pre-write data. -/
theorem C1_write_invalidation (db : DB) (c : CacheState α) (pin : ProductCreate)
    (newId : Int) (pid : Int) (u : ProductUpdate) (k : String) (now : Int)
    (hk : strStartsWith k NS_PRODUCTS_LIST = true ∨
          strStartsWith k NS_PRODUCTS_SUMMARY = true) :
    (AsyncTTLCache.get (create_product db c pin newId).2.1 k now).1 = none ∧
    ((update_product db c pid u).1.isSome = true →
      (AsyncTTLCache.get (update_product db c pid u).2.2 k now).1 = none) ∧
    ((delete_product db c pid).1 = true →
      (AsyncTTLCache.get (delete_product db c pid).2.2 k now).1 = none) := by
  refine ⟨?_, ?_, ?_⟩
  · exact get_invalidateAfterWrite_none c k now hk
  · intro hs
    cases hp : get_product_by_id db pid with
    | none => simp [update_product, hp] at hs
    | some p =>
      simp only [update_product, hp]
      exact get_invalidateAfterWrite_none c k now hk
  · intro hs
    cases hp : get_product_by_id db pid with
    | none => simp [delete_product, hp] at hs
    | some p =>
      simp only [delete_product, hp]
      exact get_invalidateAfterWrite_none c k now hk

theorem C1_write_invalidation_witness :
    (strStartsWith "products:list|skip=0" "products:list" = true ∨
      strStartsWith "products:list|skip=0" "products:summary" = true) ∧
    (AsyncTTLCache.get
      (create_product ⟨[], [], []⟩
        ([("products:list|skip=0", (⟨0, 99⟩ : CacheEntry Nat))])
        ⟨"x", none, 5, 1, 1⟩ 1).2.1 "products:list|skip=0" 3).1 = none :=
  ⟨Or.inl (by decide),
   (C1_write_invalidation ⟨[], [], []⟩
      [("products:list|skip=0", (⟨0, 99⟩ : CacheEntry Nat))]
      ⟨"x", none, 5, 1, 1⟩ 1 0 {} "products:list|skip=0" 3
      (Or.inl (by decide))).1⟩

/-- C5: a product-create request whose `category_id` does not resolve to
an existing category is rejected by the route's explicit category lookup
with the invalid-reference error, before `create_product` runs, and the
store is unchanged: no product row is written. -/
theorem C5_create_invalid_reference (db : DB) (c : CacheState α)
    (req : ProductCreate) (newId : Int)
    (h : get_category_by_id db req.category_id = none) :
    (create db c req newId).1
        = Except.error "Invalid category_id: category not found" ∧
    (create db c req newId).2.1 = db := by
  simp [create, h]

theorem C5_create_invalid_reference_witness :
    get_category_by_id ⟨[], [], []⟩ 999999 = none ∧
    (create ⟨[], [], []⟩ ([] : CacheState Nat) ⟨"Oxford", none, 149, 20, 999999⟩ 1).1
      = Except.error "Invalid category_id: category not found" ∧
    (create ⟨[], [], []⟩ ([] : CacheState Nat) ⟨"Oxford", none, 149, 20, 999999⟩ 1).2.1
      = (⟨[], [], []⟩ : DB) :=
  ⟨rfl,
   (C5_create_invalid_reference ⟨[], [], []⟩ [] ⟨"Oxford", none, 149, 20, 999999⟩ 1 rfl).1,
   (C5_create_invalid_reference ⟨[], [], []⟩ ([] : CacheState Nat)
      ⟨"Oxford", none, 149, 20, 999999⟩ 1 rfl).2⟩

/-- C8: `update_product` applies exactly the fields present in the
request: the updated product is `applyUpdate p u`, every absent field
keeps its previous value, every present field takes the request's value,
and the store row is rewritten with the same `applyUpdate p u`. -/
theorem C8_partial_update (db : DB) (c : CacheState α) (pid : Int)
    (u : ProductUpdate) (p : Product)
    (hp : get_product_by_id db pid = some p) :
    (update_product db c pid u).1 = some (applyUpdate p u) ∧
    (update_product db c pid u).2.1.products
      = db.products.map (fun r => if r.id == pid then applyUpdate p u else r) ∧
    (u.name = none → (applyUpdate p u).name = p.name) ∧
    (u.description = none → (applyUpdate p u).description = p.description) ∧
    (u.price = none → (applyUpdate p u).price = p.price) ∧
    (u.stock = none → (applyUpdate p u).stock = p.stock) ∧
    (u.category_id = none → (applyUpdate p u).category_id = p.category_id) ∧
    (∀ v, u.name = some v → (applyUpdate p u).name = v) ∧
    (∀ v, u.description = some v → (applyUpdate p u).description = v) ∧
    (∀ v, u.price = some v → (applyUpdate p u).price = v) ∧
    (∀ v, u.stock = some v → (applyUpdate p u).stock = v) ∧
    (∀ v, u.category_id = some v → (applyUpdate p u).category_id = v) := by
  refine ⟨?_, ?_, ?_, ?_, ?_, ?_, ?_, ?_, ?_, ?_, ?_, ?_⟩
  · simp [update_product, hp]
  · simp [update_product, hp]
  · intro h; simp [applyUpdate, h]
  · intro h; simp [applyUpdate, h]
  · intro h; simp [applyUpdate, h]
  · intro h; simp [applyUpdate, h]
  · intro h; simp [applyUpdate, h]
  · intro v h; simp [applyUpdate, h]
  · intro v h; simp [applyUpdate, h]
  · intro v h; simp [applyUpdate, h]
  · intro v h; simp [applyUpdate, h]
  · intro v h; simp [applyUpdate, h]

theorem C8_partial_update_witness :
    get_product_by_id ⟨[], [], [⟨10, "b", none, 100, 5, 1⟩]⟩ 10
      = some ⟨10, "b", none, 100, 5, 1⟩ ∧
    (update_product ⟨[], [], [⟨10, "b", none, 100, 5, 1⟩]⟩ ([] : CacheState Nat)
        10 { stock := some 9 }).1
      = some (applyUpdate ⟨10, "b", none, 100, 5, 1⟩ { stock := some 9 }) ∧
    (applyUpdate (⟨10, "b", none, 100, 5, 1⟩ : Product) { stock := some 9 }).name = "b" ∧
    (applyUpdate (⟨10, "b", none, 100, 5, 1⟩ : Product) { stock := some 9 }).price = 100 ∧
    (applyUpdate (⟨10, "b", none, 100, 5, 1⟩ : Product) { stock := some 9 }).stock = 9 :=
  ⟨rfl,
   (C8_partial_update ⟨[], [], [⟨10, "b", none, 100, 5, 1⟩]⟩ ([] : CacheState Nat)
      10 { stock := some 9 } ⟨10, "b", none, 100, 5, 1⟩ rfl).1,
   (C8_partial_update ⟨[], [], [⟨10, "b", none, 100, 5, 1⟩]⟩ ([] : CacheState Nat)
      10 { stock := some 9 } ⟨10, "b", none, 100, 5, 1⟩ rfl).2.2.1 rfl,
   (C8_partial_update ⟨[], [], [⟨10, "b", none, 100, 5, 1⟩]⟩ ([] : CacheState Nat)
      10 { stock := some 9 } ⟨10, "b", none, 100, 5, 1⟩ rfl).2.2.2.2.1 rfl,
   (C8_partial_update ⟨[], [], [⟨10, "b", none, 100, 5, 1⟩]⟩ ([] : CacheState Nat)
      10 { stock := some 9 } ⟨10, "b", none, 100, 5, 1⟩ rfl).2.2.2.2.2.2.2.2.2.2.1 9 rfl⟩

end Catalog

namespace Catalog

/-- `containsSub` decides contiguous-sublist containment. -/
theorem containsSub_iff_isInfix (hay needle : List Char) :
    containsSub hay needle = true ↔ needle <:+: hay := by
  induction hay with
  | nil =>
    simp [containsSub, List.isEmpty_iff]
  | cons h t ih =>
    simp [containsSub, Bool.or_eq_true, ih, List.isPrefixOf_iff_prefix,
      List.infix_cons_iff]

/-- A cache miss on the list key makes `list_products` return exactly
its store query. -/
theorem list_products_miss (db : DB) (c : CacheState (List Product))
    (q : ListParams) (now : Int)
    (h : (AsyncTTLCache.get c (listKey q) now).1 = none) :
    (list_products db c q now).1 = listProductsQuery db q := by
  simp only [list_products]
  rcases hget : AsyncTTLCache.get c (listKey q) now with ⟨o, c₁⟩
  rw [hget] at h
  cases o with
  | none => simp
  | some v => simp at h

/-- `sortProducts` permutes its input. -/
theorem sortProducts_perm (q : ListParams) (ps : List Product) :
    List.Perm (sortProducts q ps) ps := by
  unfold sortProducts
  split <;> exact List.perm_insertionSort _ _

/-- Every product of the query's result page is a store row passing all
the filters. -/
theorem mem_listProductsQuery (db : DB) (q : ListParams) (p : Product)
    (hmem : p ∈ listProductsQuery db q) :
    p ∈ db.products ∧ passesFilters db q p = true := by
  unfold listProductsQuery at hmem
  have h1 : p ∈ sortProducts q (db.products.filter (passesFilters db q)) :=
    List.mem_of_mem_drop (List.mem_of_mem_take hmem)
  have h2 : p ∈ db.products.filter (passesFilters db q) :=
    ((sortProducts_perm q _).mem_iff).mp h1
  exact List.mem_filter.mp h2

/-- C10: with the name filter set to the empty string, `list_products`
runs the same store query as with the name filter omitted: on cache
misses the two calls return the same page. -/
theorem C10_empty_name_no_filter (db : DB) (c : CacheState (List Product))
    (q : ListParams) (now : Int)
    (h1 : (AsyncTTLCache.get c (listKey { q with name := some "" }) now).1 = none)
    (h2 : (AsyncTTLCache.get c (listKey { q with name := none }) now).1 = none) :
    (list_products db c { q with name := some "" } now).1
      = (list_products db c { q with name := none } now).1 := by
  rw [list_products_miss db c _ now h1, list_products_miss db c _ now h2]
  have hpf : passesFilters db { q with name := some "" }
      = passesFilters db { q with name := none } := by
    funext p
    simp [passesFilters]
  simp [listProductsQuery, sortProducts, hpf]

theorem C10_empty_name_no_filter_witness :
    (AsyncTTLCache.get ([] : CacheState (List Product))
      (listKey { ({} : ListParams) with name := some "" }) 0).1 = none ∧
    (list_products ⟨[], [], [⟨10, "b", none, 100, 5, 1⟩]⟩ []
        { ({} : ListParams) with name := some "" } 0).1
      = (list_products ⟨[], [], [⟨10, "b", none, 100, 5, 1⟩]⟩ []
          { ({} : ListParams) with name := none } 0).1 :=
  ⟨rfl, C10_empty_name_no_filter ⟨[], [], [⟨10, "b", none, 100, 5, 1⟩]⟩ [] {} 0 rfl rfl⟩

end Catalog

namespace Catalog

end Catalog

namespace Catalog

/-- `catLe` as an arithmetic disjunction. -/
theorem catLe_iff (a b : Category) : catLe a b = true ↔
    (a.department_id < b.department_id ∨
      (a.department_id = b.department_id ∧ a.id ≤ b.id)) := by
  unfold catLe
  split_ifs with h1 h2
  · simp [h1]
  · constructor
    · intro hf; exact absurd hf (by simp)
    · rintro (hlt | ⟨heq, _⟩)
      · exact absurd hlt (asymm h2)
      · rw [heq] at h2; exact absurd h2 (lt_irrefl _)
  · have heq : a.department_id = b.department_id :=
      le_antisymm (not_lt.mp h2) (not_lt.mp h1)
    simp [heq, lt_irrefl]

theorem catLe_total (a b : Category) : catLe a b = true ∨ catLe b a = true := by
  simp only [catLe_iff]
  omega

theorem catLe_trans (a b c : Category) (h1 : catLe a b = true)
    (h2 : catLe b c = true) : catLe a c = true := by
  simp only [catLe_iff] at h1 h2 ⊢
  omega

theorem catLe_strict (a b : Category) (h : catLe a b = true) (hne : a.id ≠ b.id) :
    a.department_id < b.department_id ∨
      (a.department_id = b.department_id ∧ a.id < b.id) := by
  simp only [catLe_iff] at h
  omega

/-- Cache miss: `avg_price_by_department` returns its store query. -/
theorem avg_price_miss (db : DB) (c : CacheState (List AvgPriceRow)) (now : Int)
    (h : (AsyncTTLCache.get c avgPriceKey now).1 = none) :
    (avg_price_by_department db c now).1 = avg_price_by_department_query db := by
  simp only [avg_price_by_department]
  rcases hget : AsyncTTLCache.get c avgPriceKey now with ⟨o, c₁⟩
  rw [hget] at h
  cases o with
  | none => simp
  | some v => simp at h

/-- Cache miss: `total_stock_by_category` returns its store query. -/
theorem total_stock_miss (db : DB) (c : CacheState (List TotalStockRow)) (now : Int)
    (h : (AsyncTTLCache.get c totalStockKey now).1 = none) :
    (total_stock_by_category db c now).1 = total_stock_by_category_query db := by
  simp only [total_stock_by_category]
  rcases hget : AsyncTTLCache.get c totalStockKey now with ⟨o, c₁⟩
  rw [hget] at h
  cases o with
  | none => simp
  | some v => simp at h

/-- Cache miss: `count_products_by_department` returns its store query. -/
theorem count_miss (db : DB) (c : CacheState (List CountRow)) (now : Int)
    (h : (AsyncTTLCache.get c countKey now).1 = none) :
    (count_products_by_department db c now).1
      = count_products_by_department_query db := by
  simp only [count_products_by_department]
  rcases hget : AsyncTTLCache.get c countKey now with ⟨o, c₁⟩
  rw [hget] at h
  cases o with
  | none => simp
  | some v => simp at h

/-- Cache miss: `total_value_by_department` returns its store query. -/
theorem total_value_miss (db : DB) (c : CacheState (List ValueRow)) (now : Int)
    (h : (AsyncTTLCache.get c totalValueKey now).1 = none) :
    (total_value_by_department db c now).1 = total_value_by_department_query db := by
  simp only [total_value_by_department]
  rcases hget : AsyncTTLCache.get c totalValueKey now with ⟨o, c₁⟩
  rw [hget] at h
  cases o with
  | none => simp
  | some v => simp at h

/-- Rows of the average-price report, characterised. -/
theorem mem_avg_price_query (db : DB) (r : AvgPriceRow) :
    r ∈ avg_price_by_department_query db ↔
    ∃ d ∈ db.departments, deptJoinedProducts db d.id ≠ [] ∧
      r = ⟨d.id, d.name,
        ((deptJoinedProducts db d.id).map Product.price).sum
          / ((deptJoinedProducts db d.id).length : ℚ)⟩ := by
  unfold avg_price_by_department_query
  rw [List.mem_filterMap]
  constructor
  · rintro ⟨d, hd, hfd⟩
    have hdm : d ∈ db.departments := (List.perm_insertionSort _ _).mem_iff.mp hd
    by_cases he : (deptJoinedProducts db d.id).isEmpty = true
    · rw [if_pos he] at hfd
      exact absurd hfd (by simp)
    · rw [if_neg he] at hfd
      exact ⟨d, hdm, fun hnil => he (by simp [hnil]), (Option.some.inj hfd).symm⟩
  · rintro ⟨d, hd, hne, rfl⟩
    exact ⟨d, (List.perm_insertionSort _ _).mem_iff.mpr hd,
      by rw [if_neg (by simp [List.isEmpty_iff, hne])]⟩

/-- Rows of the product-count report, characterised. -/
theorem mem_count_query (db : DB) (r : CountRow) :
    r ∈ count_products_by_department_query db ↔
    ∃ d ∈ db.departments, deptJoinedProducts db d.id ≠ [] ∧
      r = ⟨d.id, d.name, (deptJoinedProducts db d.id).length⟩ := by
  unfold count_products_by_department_query
  rw [List.mem_filterMap]
  constructor
  · rintro ⟨d, hd, hfd⟩
    have hdm : d ∈ db.departments := (List.perm_insertionSort _ _).mem_iff.mp hd
    by_cases he : (deptJoinedProducts db d.id).isEmpty = true
    · rw [if_pos he] at hfd
      exact absurd hfd (by simp)
    · rw [if_neg he] at hfd
      exact ⟨d, hdm, fun hnil => he (by simp [hnil]), (Option.some.inj hfd).symm⟩
  · rintro ⟨d, hd, hne, rfl⟩
    exact ⟨d, (List.perm_insertionSort _ _).mem_iff.mpr hd,
      by rw [if_neg (by simp [List.isEmpty_iff, hne])]⟩

/-- Rows of the inventory-value report, characterised. -/
theorem mem_value_query (db : DB) (r : ValueRow) :
    r ∈ total_value_by_department_query db ↔
    ∃ d ∈ db.departments, deptJoinedProducts db d.id ≠ [] ∧
      r = ⟨d.id, d.name,
        ((deptJoinedProducts db d.id).map (fun p => p.price * (p.stock : ℚ))).sum⟩ := by
  unfold total_value_by_department_query
  rw [List.mem_filterMap]
  constructor
  · rintro ⟨d, hd, hfd⟩
    have hdm : d ∈ db.departments := (List.perm_insertionSort _ _).mem_iff.mp hd
    by_cases he : (deptJoinedProducts db d.id).isEmpty = true
    · rw [if_pos he] at hfd
      exact absurd hfd (by simp)
    · rw [if_neg he] at hfd
      exact ⟨d, hdm, fun hnil => he (by simp [hnil]), (Option.some.inj hfd).symm⟩
  · rintro ⟨d, hd, hne, rfl⟩
    exact ⟨d, (List.perm_insertionSort _ _).mem_iff.mpr hd,
      by rw [if_neg (by simp [List.isEmpty_iff, hne])]⟩

/-- Rows of the stock-per-category report, characterised. -/
theorem mem_stock_query (db : DB) (r : TotalStockRow) :
    r ∈ total_stock_by_category_query db ↔
    ∃ cg ∈ db.categories, ∃ d,
      db.departments.find? (fun d => d.id == cg.department_id) = some d ∧
      catProducts db cg.id ≠ [] ∧
      r = ⟨cg.id, cg.name, d.id, d.name,
        ((catProducts db cg.id).map Product.stock).sum⟩ := by
  unfold total_stock_by_category_query
  rw [List.mem_filterMap]
  constructor
  · rintro ⟨cg, hcg, hf⟩
    have hcgm : cg ∈ db.categories := (List.perm_insertionSort _ _).mem_iff.mp hcg
    cases hfind : db.departments.find? (fun d => d.id == cg.department_id) with
    | none =>
      simp only [hfind] at hf
      exact absurd hf (by simp)
    | some d =>
      simp only [hfind] at hf
      by_cases he : (catProducts db cg.id).isEmpty = true
      · rw [if_pos he] at hf
        exact absurd hf (by simp)
      · rw [if_neg he] at hf
        exact ⟨cg, hcgm, d, hfind, fun hnil => he (by simp [hnil]),
          (Option.some.inj hf).symm⟩
  · rintro ⟨cg, hcg, d, hfind, hne, rfl⟩
    refine ⟨cg, (List.perm_insertionSort _ _).mem_iff.mpr hcg, ?_⟩
    simp only [hfind]
    rw [if_neg (by simp [List.isEmpty_iff, hne])]

end Catalog

namespace Catalog

/-- C9: on cache misses, the four aggregation reports use
inner-join-absent semantics — a department with no joined products is
absent from the three department reports, and a category with no
products is absent from the stock report; `avg_price_by_department`
returns the arithmetic mean of product prices per department ordered by
department id ascending; `total_stock_by_category` returns the sum of
stock per category ordered by department id then category id.
Primary-key uniqueness of the `id` columns is assumed. -/
theorem C9_aggregation_reports (db : DB)
    (cA : CacheState (List AvgPriceRow)) (cS : CacheState (List TotalStockRow))
    (cC : CacheState (List CountRow)) (cV : CacheState (List ValueRow)) (now : Int)
    (hA : (AsyncTTLCache.get cA avgPriceKey now).1 = none)
    (hS : (AsyncTTLCache.get cS totalStockKey now).1 = none)
    (hC : (AsyncTTLCache.get cC countKey now).1 = none)
    (hV : (AsyncTTLCache.get cV totalValueKey now).1 = none)
    (hDnd : (db.departments.map Department.id).Nodup)
    (hCnd : (db.categories.map Category.id).Nodup) :
    (∀ d ∈ db.departments, deptJoinedProducts db d.id = [] →
      (∀ r ∈ (avg_price_by_department db cA now).1, r.department_id ≠ d.id) ∧
      (∀ r ∈ (count_products_by_department db cC now).1, r.department_id ≠ d.id) ∧
      (∀ r ∈ (total_value_by_department db cV now).1, r.department_id ≠ d.id)) ∧
    (∀ cg ∈ db.categories, catProducts db cg.id = [] →
      ∀ r ∈ (total_stock_by_category db cS now).1, r.category_id ≠ cg.id) ∧
    (∀ r ∈ (avg_price_by_department db cA now).1, ∃ d ∈ db.departments,
      r.department_id = d.id ∧ r.department_name = d.name ∧
      deptJoinedProducts db d.id ≠ [] ∧
      r.avg_price = ((deptJoinedProducts db d.id).map Product.price).sum
          / ((deptJoinedProducts db d.id).length : ℚ)) ∧
    List.Pairwise (fun a b : AvgPriceRow => a.department_id < b.department_id)
      (avg_price_by_department db cA now).1 ∧
    (∀ r ∈ (total_stock_by_category db cS now).1, ∃ cg ∈ db.categories,
      ∃ d ∈ db.departments, r.category_id = cg.id ∧ r.category_name = cg.name ∧
      r.department_id = d.id ∧ d.id = cg.department_id ∧
      r.department_name = d.name ∧
      r.total_stock = ((catProducts db cg.id).map Product.stock).sum) ∧
    List.Pairwise (fun a b : TotalStockRow =>
      a.department_id < b.department_id ∨
        (a.department_id = b.department_id ∧ a.category_id < b.category_id))
      (total_stock_by_category db cS now).1 := by
  rw [avg_price_miss db cA now hA, total_stock_miss db cS now hS,
    count_miss db cC now hC, total_value_miss db cV now hV]
  haveI : IsTotal Department (fun a b : Department => decide (a.id ≤ b.id) = true) := ⟨by
    intro a b
    simp only [decide_eq_true_eq]
    exact le_total a.id b.id⟩
  haveI : IsTrans Department (fun a b : Department => decide (a.id ≤ b.id) = true) := ⟨by
    intro a b c h1 h2
    simp only [decide_eq_true_eq] at h1 h2 ⊢
    exact le_trans h1 h2⟩
  haveI : IsTotal Category (fun a b => catLe a b = true) := ⟨catLe_total⟩
  haveI : IsTrans Category (fun a b => catLe a b = true) := ⟨catLe_trans⟩
  have hsortD : List.Pairwise (fun a b : Department => decide (a.id ≤ b.id) = true)
      (sortedDepartments db) := List.sorted_insertionSort _ _
  have hsortC : List.Pairwise (fun a b : Category => catLe a b = true)
      (sortedCategories db) := List.sorted_insertionSort _ _
  have hpermD : List.Perm (sortedDepartments db) db.departments :=
    List.perm_insertionSort _ _
  have hpermC : List.Perm (sortedCategories db) db.categories :=
    List.perm_insertionSort _ _
  have hndD : ((sortedDepartments db).map Department.id).Nodup :=
    ((hpermD.map Department.id).nodup_iff).mpr hDnd
  have hndC : ((sortedCategories db).map Category.id).Nodup :=
    ((hpermC.map Category.id).nodup_iff).mpr hCnd
  have hltD : List.Pairwise (fun a b : Department => a.id < b.id)
      (sortedDepartments db) := by
    have hne : List.Pairwise (fun a b : Department => a.id ≠ b.id)
        (sortedDepartments db) := List.pairwise_map.mp hndD
    exact (hsortD.and hne).imp (fun h => lt_of_le_of_ne (of_decide_eq_true h.1) h.2)
  have hltC : List.Pairwise (fun a b : Category =>
      a.department_id < b.department_id ∨
        (a.department_id = b.department_id ∧ a.id < b.id))
      (sortedCategories db) := by
    have hne : List.Pairwise (fun a b : Category => a.id ≠ b.id)
        (sortedCategories db) := List.pairwise_map.mp hndC
    exact (hsortC.and hne).imp (fun h => catLe_strict _ _ h.1 h.2)
  refine ⟨?_, ?_, ?_, ?_, ?_, ?_⟩
  · intro d hd hde
    refine ⟨?_, ?_, ?_⟩
    · intro r hr
      rcases (mem_avg_price_query db r).mp hr with ⟨d', hd', hne, rfl⟩
      intro heq
      have hdd : d' = d := List.inj_on_of_nodup_map hDnd hd' hd heq
      rw [hdd] at hne
      exact hne hde
    · intro r hr
      rcases (mem_count_query db r).mp hr with ⟨d', hd', hne, rfl⟩
      intro heq
      have hdd : d' = d := List.inj_on_of_nodup_map hDnd hd' hd heq
      rw [hdd] at hne
      exact hne hde
    · intro r hr
      rcases (mem_value_query db r).mp hr with ⟨d', hd', hne, rfl⟩
      intro heq
      have hdd : d' = d := List.inj_on_of_nodup_map hDnd hd' hd heq
      rw [hdd] at hne
      exact hne hde
  · intro cg hcg hce r hr
    rcases (mem_stock_query db r).mp hr with ⟨cg', hcg', d, hfind, hne, rfl⟩
    intro heq
    have hcc : cg' = cg := List.inj_on_of_nodup_map hCnd hcg' hcg heq
    rw [hcc] at hne
    exact hne hce
  · intro r hr
    rcases (mem_avg_price_query db r).mp hr with ⟨d, hd, hne, rfl⟩
    exact ⟨d, hd, rfl, rfl, hne, rfl⟩
  · unfold avg_price_by_department_query
    rw [List.pairwise_filterMap]
    refine hltD.imp ?_
    intro a b hab r hr r' hr'
    simp only [Option.mem_def] at hr hr'
    by_cases hea : (deptJoinedProducts db a.id).isEmpty = true
    · rw [if_pos hea] at hr
      exact absurd hr (by simp)
    · rw [if_neg hea] at hr
      by_cases heb : (deptJoinedProducts db b.id).isEmpty = true
      · rw [if_pos heb] at hr'
        exact absurd hr' (by simp)
      · rw [if_neg heb] at hr'
        rw [← Option.some.inj hr, ← Option.some.inj hr']
        exact hab
  · intro r hr
    rcases (mem_stock_query db r).mp hr with ⟨cg, hcg, d, hfind, hne, rfl⟩
    have hdm : d ∈ db.departments := List.mem_of_find?_eq_some hfind
    have hdid : d.id = cg.department_id := by simpa using List.find?_some hfind
    exact ⟨cg, hcg, d, hdm, rfl, rfl, rfl, hdid, rfl, rfl⟩
  · unfold total_stock_by_category_query
    rw [List.pairwise_filterMap]
    refine hltC.imp ?_
    intro a b hab r hr r' hr'
    simp only [Option.mem_def] at hr hr'
    cases hfa : db.departments.find? (fun d => d.id == a.department_id) with
    | none =>
      simp only [hfa] at hr
      exact absurd hr (by simp)
    | some d₁ =>
      simp only [hfa] at hr
      by_cases hea : (catProducts db a.id).isEmpty = true
      · rw [if_pos hea] at hr
        exact absurd hr (by simp)
      · rw [if_neg hea] at hr
        cases hfb : db.departments.find? (fun d => d.id == b.department_id) with
        | none =>
          simp only [hfb] at hr'
          exact absurd hr' (by simp)
        | some d₂ =>
          simp only [hfb] at hr'
          by_cases heb : (catProducts db b.id).isEmpty = true
          · rw [if_pos heb] at hr'
            exact absurd hr' (by simp)
          · rw [if_neg heb] at hr'
            rw [← Option.some.inj hr, ← Option.some.inj hr']
            have ha' : d₁.id = a.department_id := by simpa using List.find?_some hfa
            have hb' : d₂.id = b.department_id := by simpa using List.find?_some hfb
            show d₁.id < d₂.id ∨ (d₁.id = d₂.id ∧ a.id < b.id)
            rw [ha', hb']
            exact hab

theorem C9_aggregation_reports_witness :
    (deptJoinedProducts
        ⟨[⟨2, "Women"⟩, ⟨1, "Men"⟩, ⟨3, "Empty"⟩],
         [⟨1, "Shirt", 1⟩, ⟨2, "Dress", 2⟩, ⟨3, "NoProd", 1⟩],
         [⟨10, "A", none, 100, 5, 1⟩, ⟨11, "B", none, 200, 3, 1⟩,
          ⟨12, "C", none, 50, 1, 2⟩]⟩ (3 : Int) = [] ∧
      ∀ r ∈ (avg_price_by_department
        ⟨[⟨2, "Women"⟩, ⟨1, "Men"⟩, ⟨3, "Empty"⟩],
         [⟨1, "Shirt", 1⟩, ⟨2, "Dress", 2⟩, ⟨3, "NoProd", 1⟩],
         [⟨10, "A", none, 100, 5, 1⟩, ⟨11, "B", none, 200, 3, 1⟩,
          ⟨12, "C", none, 50, 1, 2⟩]⟩ [] 0).1, r.department_id ≠ 3) ∧
    List.Pairwise (fun a b : AvgPriceRow => a.department_id < b.department_id)
      (avg_price_by_department
        ⟨[⟨2, "Women"⟩, ⟨1, "Men"⟩, ⟨3, "Empty"⟩],
         [⟨1, "Shirt", 1⟩, ⟨2, "Dress", 2⟩, ⟨3, "NoProd", 1⟩],
         [⟨10, "A", none, 100, 5, 1⟩, ⟨11, "B", none, 200, 3, 1⟩,
          ⟨12, "C", none, 50, 1, 2⟩]⟩ [] 0).1 ∧
    List.Pairwise (fun a b : TotalStockRow =>
      a.department_id < b.department_id ∨
        (a.department_id = b.department_id ∧ a.category_id < b.category_id))
      (total_stock_by_category
        ⟨[⟨2, "Women"⟩, ⟨1, "Men"⟩, ⟨3, "Empty"⟩],
         [⟨1, "Shirt", 1⟩, ⟨2, "Dress", 2⟩, ⟨3, "NoProd", 1⟩],
         [⟨10, "A", none, 100, 5, 1⟩, ⟨11, "B", none, 200, 3, 1⟩,
          ⟨12, "C", none, 50, 1, 2⟩]⟩ [] 0).1 := by
  have h := C9_aggregation_reports
    ⟨[⟨2, "Women"⟩, ⟨1, "Men"⟩, ⟨3, "Empty"⟩],
     [⟨1, "Shirt", 1⟩, ⟨2, "Dress", 2⟩, ⟨3, "NoProd", 1⟩],
     [⟨10, "A", none, 100, 5, 1⟩, ⟨11, "B", none, 200, 3, 1⟩,
      ⟨12, "C", none, 50, 1, 2⟩]⟩ [] [] [] [] 0 rfl rfl rfl rfl
    (by decide) (by decide)
  exact ⟨⟨by decide, (h.1 ⟨3, "Empty"⟩ (by decide) (by decide)).1⟩,
    h.2.2.2.1, h.2.2.2.2.2⟩

end Catalog

namespace Catalog

/-- Consuming a wildcard-free pattern segment `w` eats a case-insensitive
copy of `w` off the front of the string. -/
theorem likeRem_append_lit :
    ∀ (w ps t r : List Char), (∀ c ∈ w, c ≠ '%' ∧ c ≠ '_') →
      r ∈ likeRem (w ++ ps) t →
      ∃ u t', t = u ++ t' ∧ u.map Char.toLower = w.map Char.toLower ∧
        r ∈ likeRem ps t' := by
  intro w
  induction w with
  | nil =>
    intro ps t r _ hr
    exact ⟨[], t, rfl, rfl, by simpa using hr⟩
  | cons pc w' ih =>
    intro ps t r hw hr
    have hc := hw pc (by simp)
    rw [List.cons_append] at hr
    cases t with
    | nil => simp [likeRem, hc.1] at hr
    | cons c t2 =>
      simp only [likeRem, hc.1, if_false, hc.2] at hr
      by_cases hcc : pc.toLower = c.toLower
      · rw [if_pos hcc] at hr
        rcases ih ps t2 r (fun x hx => hw x (by simp [hx])) hr with
          ⟨u, t', ht2, hu, hr'⟩
        refine ⟨c :: u, t', by rw [List.cons_append, ht2], ?_, hr'⟩
        simp [hu, hcc]
      · rw [if_neg hcc] at hr
        simp at hr

/-- A successful `%w%` match of a wildcard-free `w` exhibits `w` as a
case-insensitive contiguous substring. -/
theorem likeMatch_wildcard_free_infix (w s : List Char)
    (hw : ∀ c ∈ w, c ≠ '%' ∧ c ≠ '_')
    (h : likeMatch ('%' :: (w ++ ['%'])) s = true) :
    (w.map Char.toLower) <:+: (s.map Char.toLower) := by
  unfold likeMatch at h
  rcases List.any_eq_true.mp h with ⟨r, hr, _⟩
  simp only [likeRem, if_pos rfl] at hr
  rcases List.mem_flatMap.mp hr with ⟨t, ht, hrt⟩
  rcases likeRem_append_lit w ['%'] t r hw hrt with ⟨u, t', rfl, hu, _⟩
  have hts : (u ++ t') <:+ s := (List.mem_tails _ _).mp ht
  have hinf : u <:+: s :=
    List.infix_iff_prefix_suffix.mpr ⟨u ++ t', ⟨t', rfl⟩, hts⟩
  exact hu ▸ hinf.map Char.toLower

/-- The pattern `%%` (an empty filter wrapped in wildcards) matches
every string. -/
theorem likeMatch_pct_pct (s : List Char) : likeMatch ['%', '%'] s = true := by
  have h0 : [] ∈ likeRem ['%'] ([] : List Char) := by decide
  have h2 : [] ∈ s.tails.flatMap (fun t => likeRem ['%'] t) :=
    List.mem_flatMap.mpr ⟨[], (List.mem_tails _ _).mpr List.nil_suffix, h0⟩
  exact List.any_eq_true.mpr ⟨[], h2, rfl⟩

/-- The `%name%` pattern the source builds, as character data. -/
theorem wrap_data (n : String) :
    ("%" ++ n ++ "%").data = '%' :: (n.data ++ ['%']) := by
  simp [String.data_append]

/-- C6 counterexample: with the name filter `"_"` — a LIKE wildcard the
source's raw `f"%{name}%"` interpolation leaves active — `list_products`
returns a product whose name does not contain `"_"` as a substring at
all, refuting the claimed case-insensitive-substring property of the
name filter. -/
theorem C6_substring_counterexample :
    (⟨10, "ab", none, 100, 5, 1⟩ : Product) ∈
      (list_products ⟨[], [], [⟨10, "ab", none, 100, 5, 1⟩]⟩ []
        { name := some "_" } 0).1 ∧
    ¬ (("_".data.map Char.toLower) <:+: ("ab".data.map Char.toLower)) := by
  constructor
  · decide
  · intro h
    exact absurd ((containsSub_iff_isInfix _ _).mpr h) (by decide)

/-- C6 amended: on a cache miss, every product returned by
`list_products` satisfies the conjunction of the provided filters:
price within the inclusive min/max bounds, category in the filtered
department, and name matching the SQL ILIKE pattern `%name%` in which
the LIKE wildcards `%` and `_` of the raw filter stay active; whenever
the filter contains no wildcard or escape character (`%`, `_`, `\`),
that match is exactly a case-insensitive substring containment. -/
theorem C6_list_filters_conjunction (db : DB) (c : CacheState (List Product))
    (q : ListParams) (now : Int)
    (hmiss : (AsyncTTLCache.get c (listKey q) now).1 = none) :
    ∀ p ∈ (list_products db c q now).1,
      (∀ m, q.min_price = some m → m ≤ p.price) ∧
      (∀ m, q.max_price = some m → p.price ≤ m) ∧
      (∀ n, q.name = some n →
        sqlIlike p.name ("%" ++ n ++ "%") = true ∧
        ((∀ ch ∈ n.data, ch ≠ '%' ∧ ch ≠ '_' ∧ ch ≠ '\\') →
          (n.data.map Char.toLower) <:+: (p.name.data.map Char.toLower))) ∧
      (∀ did, q.department_id = some did →
        ∃ cg ∈ db.categories, cg.id = p.category_id ∧ cg.department_id = did) := by
  intro p hp
  rw [list_products_miss db c q now hmiss] at hp
  have hpass := (mem_listProductsQuery db q p hp).2
  simp only [passesFilters, Bool.and_eq_true] at hpass
  obtain ⟨⟨⟨⟨hname, hmin⟩, hmax⟩, hcat⟩, hdept⟩ := hpass
  refine ⟨?_, ?_, ?_, ?_⟩
  · intro m hm
    rw [hm] at hmin
    simpa using hmin
  · intro m hm
    rw [hm] at hmax
    simpa using hmax
  · intro n hn
    rw [hn] at hname
    have hmatch : sqlIlike p.name ("%" ++ n ++ "%") = true := by
      by_cases hne : n = ""
      · subst hne
        unfold sqlIlike
        rw [show ("%" ++ "" ++ "%").data = ['%', '%'] from by decide]
        exact likeMatch_pct_pct _
      · simpa [hne] using hname
    refine ⟨hmatch, ?_⟩
    intro hwf
    have hm' : likeMatch ('%' :: (n.data ++ ['%'])) p.name.data = true := by
      unfold sqlIlike at hmatch
      rw [wrap_data] at hmatch
      exact hmatch
    exact likeMatch_wildcard_free_infix n.data p.name.data
      (fun ch hch => ⟨(hwf ch hch).1, (hwf ch hch).2.1⟩) hm'
  · intro did hdid
    rw [hdid] at hdept
    rcases List.any_eq_true.mp hdept with ⟨cg, hcg, hcond⟩
    simp only [Bool.and_eq_true] at hcond
    exact ⟨cg, hcg, by simpa using hcond.1, by simpa using hcond.2⟩

theorem C6_list_filters_conjunction_witness :
    (AsyncTTLCache.get ([] : CacheState (List Product))
      (listKey { name := some "shirt", min_price := some 50,
                 max_price := some 150, department_id := some 1 }) 0).1 = none ∧
    (⟨10, "Oxford Shirt", none, 100, 5, 1⟩ : Product) ∈
      (list_products ⟨[⟨1, "Men"⟩], [⟨1, "Shirt", 1⟩],
          [⟨10, "Oxford Shirt", none, 100, 5, 1⟩, ⟨11, "Polo", none, 200, 3, 1⟩]⟩
        [] { name := some "shirt", min_price := some 50,
             max_price := some 150, department_id := some 1 } 0).1 ∧
    ((50 : ℚ) ≤ 100 ∧ (100 : ℚ) ≤ 150 ∧
      sqlIlike "Oxford Shirt" ("%" ++ "shirt" ++ "%") = true ∧
      ("shirt".data.map Char.toLower) <:+: ("Oxford Shirt".data.map Char.toLower) ∧
      ∃ cg ∈ [(⟨1, "Shirt", 1⟩ : Category)], cg.id = 1 ∧ cg.department_id = 1) := by
  refine ⟨rfl, by decide, ?_⟩
  have h := C6_list_filters_conjunction
    ⟨[⟨1, "Men"⟩], [⟨1, "Shirt", 1⟩],
      [⟨10, "Oxford Shirt", none, 100, 5, 1⟩, ⟨11, "Polo", none, 200, 3, 1⟩]⟩
    [] { name := some "shirt", min_price := some 50,
         max_price := some 150, department_id := some 1 } 0 rfl
    ⟨10, "Oxford Shirt", none, 100, 5, 1⟩ (by decide)
  have hn := h.2.2.1 "shirt" rfl
  exact ⟨h.1 50 rfl, h.2.1 150 rfl, hn.1, hn.2 (by decide), h.2.2.2 1 rfl⟩

end Catalog
